import Mathlib

/-!
Shallow embedding of the `AgoraCyber/markdown` crate (files `src/lexer.rs`,
`src/parser.rs`, `src/ast.rs`) and proofs about the claims of its
specification.

Modelling conventions:
* Rust `&str` buffers become `List Char`; offsets and token ranges stay in
  BYTES, computed with `Char.utf8Size`, exactly as Rust's `str::len`/`Chars`
  iterator arithmetic does.
* A Rust panic (a failed `assert!`, an `unimplemented!()`, or an out-of-bounds
  / non-char-boundary `&str` slice) is modelled as the `POut.panic` outcome;
  ordinary returns are `POut.ok`.  The one place the model needs a recursion
  budget (the recursive `:`-merge branch of `next_token`) carries an explicit
  fuel counter, with a distinct `POut.fuelOut` outcome so that a modelling
  artifact can never be confused with a real panic.
-/

namespace Markdown

/-- Half-open byte range `start..stop`, Rust's `Range<usize>` as used by the
lexer tokens. -/
structure Rng where
  start : Nat
  stop : Nat
deriving DecidableEq, Repr

/-- Length of a range, Rust's `Range::len` (`stop - start` on `usize`). -/
def Rng.len (r : Rng) : Nat := r.stop - r.start

/-- Mirrors `ast::AlignType` (src/ast.rs lines 29-34). -/
inductive AlignType where
  | Left
  | Right
  | Center
  | NoneAlign
deriving DecidableEq, Repr

/-- Mirrors `lexer::Token` (src/lexer.rs lines 254-281): one variant per
token kind, each carrying its half-open byte range. -/
inductive Token where
  | Pounds (r : Rng)
  | Eof (r : Rng)
  | Align (r : Rng) (a : AlignType)
  | GreaterThans (r : Rng)
  | Asterisks (r : Rng)
  | Underscores (r : Rng)
  | Dashes (r : Rng)
  | Pluses (r : Rng)
  | Backticks (r : Rng)
  | LineBreaks (r : Rng)
  | WhiteSpaces (r : Rng)
  | KeyChar (r : Rng)
  | PlainText (r : Rng)
deriving DecidableEq, Repr

/-- Mirrors `Token::to_range` (src/lexer.rs lines 285-303). -/
def Token.to_range : Token → Rng
  | .Pounds r => r
  | .Eof r => r
  | .Align r _ => r
  | .GreaterThans r => r
  | .Asterisks r => r
  | .Underscores r => r
  | .Dashes r => r
  | .Pluses r => r
  | .Backticks r => r
  | .LineBreaks r => r
  | .WhiteSpaces r => r
  | .KeyChar r => r
  | .PlainText r => r

/-- The reserved character set `KEYCHARS` (src/lexer.rs lines 5-8).  The
backtick and both curly braces are written via `Char.ofNat` (code points
96, 123, 125). -/
def KEYCHARS : List Char :=
  ['\\', Char.ofNat 96, '*', '_', Char.ofNat 123, Char.ofNat 125,
   '[', ']', '(', ')', '#', '+', '-', '.', '!', '|', '>', '<']

/-- `WHITESPACECHARS` (src/lexer.rs line 10). -/
def WHITESPACECHARS : List Char := [' ', '\t']

/-- `LINEBREAKCHARS` (src/lexer.rs line 12). -/
def LINEBREAKCHARS : List Char := ['\r', '\n']

/-- UTF-8 byte length of a character list, Rust's `str::len` on the
corresponding string. -/
def utf8Len (s : List Char) : Nat := (s.map Char.utf8Size).sum

/-- Mirrors `lexer::Lexer` (src/lexer.rs lines 16-23): the borrowed source,
the remaining-characters iterator (`_iter`, kept as the source suffix not yet
consumed) and the one-token lookahead cache. -/
structure Lexer where
  source : List Char
  rem : List Char
  lookahead : Option Token
deriving DecidableEq, Repr

/-- Mirrors `Lexer::new` (src/lexer.rs lines 27-33). -/
def Lexer.new (source : List Char) : Lexer :=
  { source := source, rem := source, lookahead := none }

/-- Mirrors `Lexer::offset` (src/lexer.rs lines 233-235):
`source.len() - iter.as_str().len()`, in bytes. -/
def Lexer.offset (l : Lexer) : Nat := utf8Len l.source - utf8Len l.rem

/-- Outcome of running a piece of the Rust code: a normal return, a panic,
or exhaustion of the model's recursion budget (never the code's doing). -/
inductive POut (α : Type) where
  | ok (a : α)
  | panic
  | fuelOut
deriving DecidableEq, Repr

/-- Core loop of `Lexer::read_until` (src/lexer.rs lines 217-231), with the
closure `f` made an explicit state-passing function (the two stateful
closures of the lexer mutate a captured `bool`).  Returns the closure's final
state and the remaining suffix after the scan, or `none` for the panic that
`read_until` commits when it rolls the iterator back with
`self._source[(self.offset() - 1)..]`: that slice is only on a character
boundary when the rejected character is a single UTF-8 byte. -/
def read_until_go {σ : Type} (f : σ → Char → σ × Bool) : σ → List Char → Option (σ × List Char)
  | s, [] => some (s, [])
  | s, c :: rest =>
    match f s c with
    | (s', true) => read_until_go f s' rest
    | (s', false) => if c.utf8Size = 1 then some (s', c :: rest) else none

/-- Byte offset reached after `read_until` when the remaining suffix is
`rem'` inside `src`. -/
def offAt (src rem' : List Char) : Nat := utf8Len src - utf8Len rem'

/-- Mirrors `Lexer::read_pounds` (src/lexer.rs lines 97-101).  `src` is the
whole source, `rem` the suffix after the dispatched `#`, `start` the byte
offset of that `#`. -/
def read_pounds (src rem : List Char) (start : Nat) : Option (Token × List Char) :=
  match read_until_go (fun _ c => ((), c = '#')) () rem with
  | none => none
  | some (_, rem') => some (.Pounds ⟨start, offAt src rem'⟩, rem')

/-- The stateful closure of `read_align_type_or_plaintext` (src/lexer.rs
lines 105-116); the state is the captured `suffix` flag. -/
def align_f (suffix : Bool) (c : Char) : Bool × Bool :=
  if c = '-' then (suffix, true)
  else if ¬suffix ∧ c = ':' then (true, true)
  else (suffix, false)

/-- Mirrors `Lexer::read_align_type_or_plaintext` (src/lexer.rs lines
103-135).  `prefixed` is the Rust `has_prefix` argument. -/
def read_align_type_or_plaintext (src rem : List Char) (start : Nat) (prefixed : Bool) :
    Option (Token × List Char) :=
  match read_until_go align_f false rem with
  | none => none
  | some (suffix, rem') =>
    let b := offAt src rem
    let e := offAt src rem'
    if prefixed ∧ e - b > 1 then
      if suffix then some (.Align ⟨start, e⟩ .Center, rem')
      else some (.Align ⟨start, e⟩ .Left, rem')
    else if ¬prefixed ∧ e - b > 1 then
      if suffix then some (.Align ⟨start, e⟩ .Right, rem')
      else some (.Dashes ⟨start, e⟩, rem')
    else some (.PlainText ⟨start, e⟩, rem')

/-- Mirrors `Lexer::read_asterisks` (src/lexer.rs lines 137-141). -/
def read_asterisks (src rem : List Char) (start : Nat) : Option (Token × List Char) :=
  match read_until_go (fun _ c => ((), c = '*')) () rem with
  | none => none
  | some (_, rem') => some (.Asterisks ⟨start, offAt src rem'⟩, rem')

/-- Mirrors `Lexer::read_underscores` (src/lexer.rs lines 143-147). -/
def read_underscores (src rem : List Char) (start : Nat) : Option (Token × List Char) :=
  match read_until_go (fun _ c => ((), c = '_')) () rem with
  | none => none
  | some (_, rem') => some (.Underscores ⟨start, offAt src rem'⟩, rem')

/-- Mirrors `Lexer::read_pluses` (src/lexer.rs lines 149-153). -/
def read_pluses (src rem : List Char) (start : Nat) : Option (Token × List Char) :=
  match read_until_go (fun _ c => ((), c = '+')) () rem with
  | none => none
  | some (_, rem') => some (.Pluses ⟨start, offAt src rem'⟩, rem')

/-- Mirrors `Lexer::read_backticks` (src/lexer.rs lines 155-159). -/
def read_backticks (src rem : List Char) (start : Nat) : Option (Token × List Char) :=
  match read_until_go (fun _ c => ((), c = Char.ofNat 96)) () rem with
  | none => none
  | some (_, rem') => some (.Backticks ⟨start, offAt src rem'⟩, rem')

/-- Mirrors `Lexer::read_whitespaces` (src/lexer.rs lines 161-165). -/
def read_whitespaces (src rem : List Char) (start : Nat) : Option (Token × List Char) :=
  match read_until_go (fun _ c => ((), c ∈ WHITESPACECHARS)) () rem with
  | none => none
  | some (_, rem') => some (.WhiteSpaces ⟨start, offAt src rem'⟩, rem')

/-- Mirrors `Lexer::read_linebreaks` (src/lexer.rs lines 167-171). -/
def read_linebreaks (src rem : List Char) (start : Nat) : Option (Token × List Char) :=
  match read_until_go (fun _ c => ((), c ∈ LINEBREAKCHARS)) () rem with
  | none => none
  | some (_, rem') => some (.LineBreaks ⟨start, offAt src rem'⟩, rem')

/-- The stateful closure of `read_plaintext` (src/lexer.rs lines 176-195);
the state is the captured `escaping` flag. -/
def plaintext_f (escaping : Bool) (c : Char) : Bool × Bool :=
  if c ∈ KEYCHARS then
    if c = '\\' ∧ ¬escaping then (true, true)
    else (escaping, escaping)
  else if c ∈ WHITESPACECHARS then (escaping, false)
  else if c ∈ LINEBREAKCHARS then (escaping, false)
  else (escaping, true)

/-- Mirrors `Lexer::read_plaintext` (src/lexer.rs lines 173-198). -/
def read_plaintext (src rem : List Char) (start : Nat) : Option (Token × List Char) :=
  match read_until_go plaintext_f false rem with
  | none => none
  | some (_, rem') => some (.PlainText ⟨start, offAt src rem'⟩, rem')

/-- Mirrors `Lexer::next_token` (src/lexer.rs lines 47-94).  The `fuel`
argument bounds the nesting depth of the recursive `lookahead` call inside
the `:` branch; `fuel = rem.length + 1` always suffices (each nested call
starts strictly deeper in the source), and running out is reported as the
separate `fuelOut` outcome, never as a panic. -/
def next_token_fuel : Nat → Lexer → POut (Token × Lexer)
  | 0, _ => .fuelOut
  | fuel + 1, l =>
    match l.lookahead with
    | some t => .ok (t, { l with lookahead := none })
    | none =>
      let start := l.offset
      match l.rem with
      | [] => .ok (.Eof ⟨utf8Len l.source, utf8Len l.source⟩, l)
      | c :: rest =>
        if c = '#' then
          match read_pounds l.source rest start with
          | none => .panic
          | some (t, rem') => .ok (t, ⟨l.source, rem', none⟩)
        else if c = '*' then
          match read_asterisks l.source rest start with
          | none => .panic
          | some (t, rem') => .ok (t, ⟨l.source, rem', none⟩)
        else if c = '+' then
          match read_pluses l.source rest start with
          | none => .panic
          | some (t, rem') => .ok (t, ⟨l.source, rem', none⟩)
        else if c = '-' then
          match read_align_type_or_plaintext l.source rest start false with
          | none => .panic
          | some (t, rem') => .ok (t, ⟨l.source, rem', none⟩)
        else if c = ':' then
          match read_align_type_or_plaintext l.source rest start true with
          | none => .panic
          | some (t, rem') =>
            match t with
            | .PlainText r =>
              match next_token_fuel fuel ⟨l.source, rem', none⟩ with
              | .panic => .panic
              | .fuelOut => .fuelOut
              | .ok (nt, l₂) =>
                match nt with
                | .PlainText nr =>
                  .ok (.PlainText ⟨r.start, nr.stop⟩, ⟨l.source, l₂.rem, none⟩)
                | _ => .ok (.PlainText r, ⟨l.source, l₂.rem, some nt⟩)
            | _ => .ok (t, ⟨l.source, rem', none⟩)
        else if c = '_' then
          match read_underscores l.source rest start with
          | none => .panic
          | some (t, rem') => .ok (t, ⟨l.source, rem', none⟩)
        else if c = Char.ofNat 96 then
          match read_backticks l.source rest start with
          | none => .panic
          | some (t, rem') => .ok (t, ⟨l.source, rem', none⟩)
        else if c = ' ' ∨ c = '\t' then
          match read_whitespaces l.source rest start with
          | none => .panic
          | some (t, rem') => .ok (t, ⟨l.source, rem', none⟩)
        else if c = '\r' ∨ c = '\n' then
          match read_linebreaks l.source rest start with
          | none => .panic
          | some (t, rem') => .ok (t, ⟨l.source, rem', none⟩)
        else if c ∈ KEYCHARS then
          .ok (.KeyChar ⟨start, start + 1⟩, ⟨l.source, rest, none⟩)
        else
          match read_plaintext l.source rest start with
          | none => .panic
          | some (t, rem') => .ok (t, ⟨l.source, rem', none⟩)

/-- The crate's `Lexer::next_token`, with fuel that the `:`-branch recursion
can never exhaust. -/
def next_token (l : Lexer) : POut (Token × Lexer) :=
  next_token_fuel (l.rem.length + 1) l

/-- Mirrors `Lexer::lookahead` (src/lexer.rs lines 201-207): take the next
token and cache it. -/
def lookahead (l : Lexer) : POut (Token × Lexer) :=
  match next_token l with
  | .ok (t, l') => .ok (t, { l' with lookahead := some t })
  | .panic => .panic
  | .fuelOut => .fuelOut

/-- Rust `&source[n..]` on a string: `some` suffix when byte offset `n` is a
character boundary within bounds, `none` (panic) otherwise. -/
def byte_suffix : List Char → Nat → Option (List Char)
  | s, 0 => some s
  | [], _ + 1 => none
  | c :: rest, n + 1 =>
    if c.utf8Size ≤ n + 1 then byte_suffix rest (n + 1 - c.utf8Size) else none

/-- Mirrors `Lexer::rollback_to` (src/lexer.rs lines 36-44): the two
`assert!`s, then re-seating the iterator at the token's start offset and
caching the token as the lookahead. -/
def rollback_to (l : Lexer) (t : Token) : Option Lexer :=
  let r := t.to_range
  if r.start < utf8Len l.source then
    if r.stop < utf8Len l.source then
      match byte_suffix l.source r.start with
      | some rem' => some { l with rem := rem', lookahead := some t }
      | none => none
    else none
  else none

/-- Token number `n` (0-based) of the stream obtained by repeated
`next_token` calls on a fresh `Lexer::new source`, together with the lexer
state after it. -/
def nth_token (src : List Char) : Nat → POut (Token × Lexer)
  | 0 => next_token (Lexer.new src)
  | n + 1 =>
    match nth_token src n with
    | .ok (_, l) => next_token l
    | .panic => .panic
    | .fuelOut => .fuelOut

/-- Just the `n`-th token of the stream over `src` (dropping the lexer
state); `none` when the lexer panicked earlier (or the model ran out of
fuel, which never happens for `fuel = rem.length + 1`). -/
def token_at (src : List Char) (n : Nat) : Option Token :=
  match nth_token src n with
  | .ok (t, _) => some t
  | _ => none

/-! AST model, mirroring `src/ast.rs`.  Rust `&'cx str` payloads become
`List Char`. -/

/-- Mirrors `ast::ReferenceType` (src/ast.rs lines 16-20). -/
inductive ReferenceType where
  | Shortcut
  | Collapsed
  | Full
deriving DecidableEq, Repr

/-- Mirrors `ast::AstError` (src/ast.rs line 7): an enum with no variants,
so no `AstError` value exists and `add_child` can never return `Err`. -/
inductive AstError where

/-- Mirrors `parser::ParserError` (src/parser.rs lines 10-13): its only
variant wraps the uninhabited `AstError`, so it is uninhabited too. -/
inductive ParserError where
  | AstErrorCase (e : AstError)

/-- Mirrors `ast::Node` (src/ast.rs lines 61-94): the enum has exactly
these seventeen variants, each carrying the fields of the corresponding
struct. -/
inductive Node where
  | document (children : List Node)
  | heading (children : List Node) (depth : Nat)
  | thematicBreak
  | blockquote (children : List Node)
  | list (children : List Node)
  | listItem (children : List Node)
  | code (value : List Char) (lang : Option (List Char)) (meta : Option (List Char))
  | definition (children : List Node) (identifier : List Char)
      (label : Option (List Char)) (url : List Char) (title : Option (List Char))
  | text (value : List Char)
  | emphasis (children : List Node)
  | strong (children : List Node)
  | inlineCode (value : List Char)
  | break_
  | link (children : List Node) (url : List Char) (title : Option (List Char))
  | linkReference (children : List Node) (identifier : List Char)
      (label : Option (List Char)) (reference_type : ReferenceType)
  | image (url : List Char) (title : Option (List Char)) (alt : Option (List Char))
  | imageReference (url : List Char) (title : Option (List Char)) (alt : Option (List Char))

/-- Mirrors `ast::Document` (src/ast.rs lines 261-264). -/
structure Document where
  children : List Node := []

/-- Mirrors `Document::add_child` as generated by the `parent!` macro
(src/ast.rs lines 204-225): an unconditional push that returns `Ok(())` —
the `AstResult` error case is unrepresentable since `AstError` is empty. -/
def Document.add_child (d : Document) (n : Node) : Document :=
  { children := d.children ++ [n] }

/-- Mirrors `ast::Heading` (src/ast.rs lines 301-308). -/
structure Heading where
  children : List Node
  depth : Nat

/-- Mirrors `Heading::new` (src/ast.rs lines 310-323): `assert!(depth > 0 &&
depth < 7)` — a failed assertion is a panic, modelled as `none`. -/
def Heading.new (depth : Nat) : Option Heading :=
  if depth > 0 ∧ depth < 7 then some { children := [], depth := depth } else none

/-- One name per struct type declared in src/ast.rs (the Markdown construct
kinds the spec enumerates, plus `Paragraph`, which the file also declares). -/
inductive StructType where
  | Document | Paragraph | Heading | ThematicBreak | Blockquote | List
  | ListItem | Code | Definition | Text | Emphasis | Strong | InlineCode
  | Break | Link | LinkReference | Image | ImageReference | Delete
  | FootnoteDefinition | FootnoteReference | Table | TableRow | TableCell
deriving DecidableEq, Repr, Fintype

/-- The five content-model capability traits of src/ast.rs lines 40-52. -/
inductive Capability where
  | Flow | ListC | Phrasing | TableC | Row
deriving DecidableEq, Repr, Fintype

/-- Which struct type implements which capability trait — transcribed from
the `impl ... for ...` lines of src/ast.rs. -/
def implements (t : StructType) (cap : Capability) : Bool :=
  match cap with
  | .Flow =>
    match t with
    | .Paragraph | .Heading | .ThematicBreak | .Blockquote | .List | .Code
    | .Definition | .FootnoteDefinition | .Table => true
    | _ => false
  | .ListC => t = .ListItem
  | .Phrasing =>
    match t with
    | .Text | .Emphasis | .Strong | .InlineCode | .Break | .Link
    | .LinkReference | .Image | .ImageReference | .Delete
    | .FootnoteReference => true
    | _ => false
  | .TableC => t = .TableRow
  | .Row => t = .TableCell

/-- The `Parent` impl each struct type receives, transcribed from the
`parent!` macro invocations of src/ast.rs: `none` = no `Parent` impl at all;
`some none` = the one-argument form `parent!(T)` (no capability bound on the
child — src/ast.rs line 266, used only for `Document`); `some (some cap)` =
the two-argument form `parent!(T, Cap)`. -/
def parent_bound : StructType → Option (Option Capability)
  | .Document => some none
  | .Paragraph => some (some .Phrasing)
  | .Heading => some (some .Phrasing)
  | .Blockquote => some (some .Phrasing)
  | .List => some (some .ListC)
  | .ListItem => some (some .Flow)
  | .Emphasis => some (some .Phrasing)
  | .Strong => some (some .Phrasing)
  | .Link => some (some .Phrasing)
  | .LinkReference => some (some .Phrasing)
  | .Delete => some (some .Phrasing)
  | .FootnoteDefinition => some (some .Flow)
  | .Table => some (some .TableC)
  | .TableCell => some (some .Phrasing)
  | .TableRow => some (some .Row)
  | _ => none

/-- Whether `add_child` on a parent of struct type `p` is well-typed for a
child of struct type `c`: a `Parent` impl must exist and the child must
satisfy its capability bound.  (The macro also demands `Child: Into<Node>`,
a bound independent of the capability table under examination here.) -/
def allowed_child (p c : StructType) : Bool :=
  match parent_bound p with
  | none => false
  | some none => true
  | some (some cap) => implements c cap

/-- The struct type whose data a `Node` value carries (the enum tag). -/
def node_kind : Node → StructType
  | .document _ => .Document
  | .heading _ _ => .Heading
  | .thematicBreak => .ThematicBreak
  | .blockquote _ => .Blockquote
  | .list _ => .List
  | .listItem _ => .ListItem
  | .code _ _ _ => .Code
  | .definition _ _ _ _ _ => .Definition
  | .text _ => .Text
  | .emphasis _ => .Emphasis
  | .strong _ => .Strong
  | .inlineCode _ => .InlineCode
  | .break_ => .Break
  | .link _ _ _ => .Link
  | .linkReference _ _ _ _ => .LinkReference
  | .image _ _ _ => .Image
  | .imageReference _ _ _ => .ImageReference

/-- The seventeen struct types that do have a `Node` enum variant in
src/ast.rs lines 61-94 (`Paragraph`, `Delete`, `FootnoteDefinition`,
`FootnoteReference`, `Table`, `TableRow`, `TableCell` are declared as
structs but given no variant). -/
def has_node_variant : StructType → Bool
  | .Paragraph | .Delete | .FootnoteDefinition | .FootnoteReference
  | .Table | .TableRow | .TableCell => false
  | _ => true

/-! Parser model, mirroring `src/parser.rs`.  Every `unimplemented!()` of the
source is a panic.  (As written the file does not even compile: it calls
`Lexer::range_as_str` and `Heading::add_child_node`, neither of which exists,
and `Text: Into<Node>` is not implemented; the model charitably reads
`range_as_str` as byte-range slicing and proceeds, which does not affect any
outcome below because every path ends in `unimplemented!()` first.) -/

/-- Mirrors `Parser::parse_phrasing_content` (src/parser.rs lines 94-96):
the body is `unimplemented!()`. -/
def parse_phrasing_content (_l : Lexer) : POut (Option (Node × Lexer)) :=
  .panic

/-- Mirrors `Parser::parse_heading` (src/parser.rs lines 71-92).  On a
`WhiteSpaces` lookahead it builds `Heading::new(pounds.len())` (whose
assertion can panic), optionally adds the first `Text` child, then enters
`while let Some(content) = self.parse_phrasing_content()?` — whose very
first call hits `unimplemented!()`; every other lookahead falls through to
the function's own trailing `unimplemented!()`. -/
def parse_heading (l : Lexer) (pounds : Rng) : POut (Node × Lexer) :=
  match lookahead l with
  | .panic => .panic
  | .fuelOut => .fuelOut
  | .ok (t, l₂) =>
    match t with
    | .WhiteSpaces _r =>
      match Heading.new pounds.len with
      | none => .panic
      | some _heading =>
        match parse_phrasing_content l₂ with
        | .panic => .panic
        | .fuelOut => .fuelOut
        | .ok _ => .panic
    | _ => .panic

/-- Mirrors `Parser::parse_flow_content` (src/parser.rs lines 49-61):
`GreaterThans` and `Backticks` dispatch to `parse_block_quote` /
`parse_code`, both of which are bare `unimplemented!()` bodies; `Pounds`
dispatches to `parse_heading`; `Eof` returns `None`; everything else hits
the catch-all `unimplemented!()`. -/
def parse_flow_content (l : Lexer) : POut (Option Node × Lexer) :=
  match next_token l with
  | .panic => .panic
  | .fuelOut => .fuelOut
  | .ok (t, l₂) =>
    match t with
    | .GreaterThans _ => .panic
    | .Backticks _ => .panic
    | .Pounds r =>
      match parse_heading l₂ r with
      | .ok (node, l₃) => .ok (some node, l₃)
      | .panic => .panic
      | .fuelOut => .fuelOut
    | .Eof _ => .ok (none, l₂)
    | _ => .panic

/-- The `loop` of `Parser::parse` (src/parser.rs lines 36-46), with a fuel
bound on the number of iterations (a model artifact reported as `fuelOut`,
distinct from any panic). -/
def parse_go : Nat → Document → Lexer → POut Document
  | 0, _, _ => .fuelOut
  | n + 1, doc, l =>
    match parse_flow_content l with
    | .ok (some node, l') => parse_go n (doc.add_child node) l'
    | .ok (none, _) => .ok doc
    | .panic => .panic
    | .fuelOut => .fuelOut

/-- Mirrors `Parser::parse` (src/parser.rs lines 36-46) on a fresh parser
over `src`.  `ParserError` is uninhabited (see `AstError`), so the Rust
`Err` case is unrepresentable and the outcomes are exactly: a `Document`, a
panic, or the model's own fuel bound. -/
def parse (src : List Char) : POut Document :=
  parse_go (src.length + 1) {} (Lexer.new src)

/-! Sanity checks: the model reproduces the crate's own passing unit tests
(`mod tests` of src/lexer.rs). -/

/-- Model validation against `test_heading` (src/lexer.rs lines 318-329),
first four tokens of a `"# Heading\n"`-prefixed source. -/
theorem sanity_test_heading :
    (token_at ['#', ' ', 'H', 'e', 'a', 'd', 'i', 'n', 'g', '\n'] 0 = some (.Pounds ⟨0, 1⟩)) ∧
    (token_at ['#', ' ', 'H', 'e', 'a', 'd', 'i', 'n', 'g', '\n'] 1 = some (.WhiteSpaces ⟨1, 2⟩)) ∧
    (token_at ['#', ' ', 'H', 'e', 'a', 'd', 'i', 'n', 'g', '\n'] 2 = some (.PlainText ⟨2, 9⟩)) ∧
    (token_at ['#', ' ', 'H', 'e', 'a', 'd', 'i', 'n', 'g', '\n'] 3 = some (.LineBreaks ⟨9, 10⟩)) := by
  decide

/-- Model validation against `test_align_type` (src/lexer.rs lines 376-389):
the spec's §8 scenario input tokenizes to Left, Center, Right, Dashes with
whitespace in between. -/
theorem sanity_test_align_type :
    (token_at [':', '-', '-', ' ', ':', '-', '-', '-', ':', ' ', '-', '-', ':', ' ', '-', '-', '-', '-'] 0 =
      some (.Align ⟨0, 3⟩ .Left)) ∧
    (token_at [':', '-', '-', ' ', ':', '-', '-', '-', ':', ' ', '-', '-', ':', ' ', '-', '-', '-', '-'] 2 =
      some (.Align ⟨4, 9⟩ .Center)) ∧
    (token_at [':', '-', '-', ' ', ':', '-', '-', '-', ':', ' ', '-', '-', ':', ' ', '-', '-', '-', '-'] 4 =
      some (.Align ⟨10, 13⟩ .Right)) ∧
    (token_at [':', '-', '-', ' ', ':', '-', '-', '-', ':', ' ', '-', '-', ':', ' ', '-', '-', '-', '-'] 6 =
      some (.Dashes ⟨14, 18⟩)) := by
  decide

/-- Model validation against `test_list` and `test_keychars` (src/lexer.rs
lines 347-362, 391-400): `.` and `|` become single-character `KeyChar`s. -/
theorem sanity_test_keychars :
    (token_at ['1', '.', ' ', 'h', 'e', 'l', 'l', 'o'] 0 = some (.PlainText ⟨0, 1⟩)) ∧
    (token_at ['1', '.', ' ', 'h', 'e', 'l', 'l', 'o'] 1 = some (.KeyChar ⟨1, 2⟩)) ∧
    (token_at ['|', ' ', 'f', 'o', 'o', ' ', '|'] 0 = some (.KeyChar ⟨0, 1⟩)) ∧
    (token_at ['|', ' ', 'f', 'o', 'o', ' ', '|'] 2 = some (.PlainText ⟨2, 5⟩)) := by
  decide

/-! Claim theorems. -/

/-- C1: the claim says `parse("# Heading\n")` succeeds with a one-`Heading`
document.  In the code it panics: `parse_heading` calls the
`unimplemented!()` body of `parse_phrasing_content` (and its own trailing
`unimplemented!()` is unconditional), so the crate's own
`parser::tests::test_heading` (`parser.parse().unwrap()`) cannot pass
either.  The model evaluates the parser at exactly this input. -/
theorem c1_parse_heading_panics :
    parse ['#', ' ', 'H', 'e', 'a', 'd', 'i', 'n', 'g', '\n'] = .panic := by
  rfl

/-- C2: the claim says `parse` never aborts because a paragraph fallback
always succeeds.  No such fallback exists: the catch-all arm of
`parse_flow_content` is `unimplemented!()`, so the plain word input
`"hello"` panics the parser, contradicting the claim (and the doc comment
of `parse_flow_content`, which lists `Content` among the alternatives). -/
theorem c2_parse_hello_panics :
    parse ['h', 'e', 'l', 'l', 'o'] = .panic := by
  rfl

/-- C3: the claim says the lexer never fails on any UTF-8 input.  On
`"#é"` the run of `#` ends at the two-byte character `é`; `read_until`
then rolls the iterator back with `&self._source[(self.offset() - 1)..]`,
and `offset() - 1` = byte 2 is in the middle of `é`, so the slice panics
("byte index 2 is not a char boundary").  The model evaluates `next_token`
at exactly this input. -/
theorem c3_next_token_multibyte_panics :
    next_token (Lexer.new ['#', 'é']) = .panic := by
  decide

/-- C9: `Heading::new` asserts `depth > 0 && depth < 7`, so depth 0 and
depth 7 (and anything outside `[1,6]`) abort construction, while every
depth in `[1,6]` yields a `Heading` with that depth and no children. -/
theorem c9_heading_new_depth_bound :
    Heading.new 0 = none ∧ Heading.new 7 = none ∧
    (∀ d : Nat, d = 0 ∨ 7 ≤ d → Heading.new d = none) ∧
    (∀ d : Nat, 1 ≤ d → d ≤ 6 → Heading.new d = some { children := [], depth := d }) := by
  refine ⟨rfl, rfl, ?_, ?_⟩
  · intro d hd
    unfold Heading.new
    rw [if_neg (by omega)]
  · intro d h1 h6
    unfold Heading.new
    rw [if_pos (by omega)]

/-- Witness for C9 at depth 3 and depth 9. -/
theorem c9_heading_new_depth_bound_witness :
    Heading.new 3 = some { children := [], depth := 3 } ∧ Heading.new 9 = none :=
  ⟨c9_heading_new_depth_bound.2.2.2 3 (by decide) (by decide),
   c9_heading_new_depth_bound.2.2.1 9 (Or.inr (by decide))⟩

/-- C7 counterexample: the claim's table says `Blockquote` accepts exactly
the `FlowContent` children and `Document` accepts only `FlowContent`.  In
the code `parent!(Blockquote, PhrasingContent)` bounds `Blockquote`'s
children by `PhrasingContent`, so the flow-content node `Paragraph` is
rejected while the phrasing-content node `Text` is accepted; and
`parent!(Document)` puts no capability bound at all on `Document`, which
therefore accepts the non-flow `Text` child. -/
theorem c7_counterexample :
    allowed_child .Blockquote .Paragraph = false ∧ implements .Paragraph .Flow = true ∧
    allowed_child .Blockquote .Text = true ∧ implements .Text .Flow = false ∧
    allowed_child .Document .Text = true := by
  decide

/-- The capability table the code actually enforces, written out as the
amended claim states it: `Document` is unconstrained, `Blockquote` requires
`PhrasingContent`, and the rest of the claim's table is as claimed. -/
def amended_allowed (p c : StructType) : Bool :=
  match p with
  | .Document => true
  | .Blockquote | .Paragraph | .Heading | .Emphasis | .Strong | .Link
  | .LinkReference | .Delete | .TableCell => implements c .Phrasing
  | .ListItem | .FootnoteDefinition => implements c .Flow
  | .List => implements c .ListC
  | .Table => implements c .TableC
  | .TableRow => implements c .Row
  | _ => false

/-- C7 amended: appending a child is well-typed exactly per the corrected
table — `ListItem`/`FootnoteDefinition` require `FlowContent`; `Paragraph`,
`Heading`, `Emphasis`, `Strong`, `Link`, `LinkReference`, `Delete`,
`TableCell` and also `Blockquote` require `PhrasingContent`; `List`
requires `ListContent`, `Table` requires `TableContent`, `TableRow`
requires `RowContent`; `Document` accepts any child; all other struct
types accept no children. -/
theorem c7_amended_capability_table :
    ∀ p c : StructType, allowed_child p c = amended_allowed p c := by
  decide

/-- C8 counterexample: the claim says every one of the 23 listed kinds has
a `Node` variant, `Delete` among them; no `Node` value has kind `Delete`
because the enum of src/ast.rs lines 61-94 stops at `ImageReference`. -/
theorem c8_counterexample : ¬ ∃ n : Node, node_kind n = .Delete := by
  rintro ⟨n, h⟩
  cases n <;> cases h

/-- C8 amended: `Node` is a closed tagged union with exactly one variant
for each of the seventeen kinds `Document, Heading, ThematicBreak,
Blockquote, List, ListItem, Code, Definition, Text, Emphasis, Strong,
InlineCode, Break, Link, LinkReference, Image, ImageReference`; the
remaining six claimed kinds (`Delete`, `FootnoteDefinition`,
`FootnoteReference`, `Table`, `TableRow`, `TableCell`) have struct
declarations but no `Node` variant, so they can never occur in a parsed
tree. -/
theorem c8_amended_variant_set :
    ∀ k : StructType, (∃ n : Node, node_kind n = k) ↔ has_node_variant k = true := by
  intro k
  constructor
  · rintro ⟨n, rfl⟩
    cases n <;> rfl
  · intro h
    cases k with
    | Document => exact ⟨.document [], rfl⟩
    | Heading => exact ⟨.heading [] 1, rfl⟩
    | ThematicBreak => exact ⟨.thematicBreak, rfl⟩
    | Blockquote => exact ⟨.blockquote [], rfl⟩
    | List => exact ⟨.list [], rfl⟩
    | ListItem => exact ⟨.listItem [], rfl⟩
    | Code => exact ⟨.code [] none none, rfl⟩
    | Definition => exact ⟨.definition [] [] none [] none, rfl⟩
    | Text => exact ⟨.text [], rfl⟩
    | Emphasis => exact ⟨.emphasis [], rfl⟩
    | Strong => exact ⟨.strong [], rfl⟩
    | InlineCode => exact ⟨.inlineCode [], rfl⟩
    | Break => exact ⟨.break_, rfl⟩
    | Link => exact ⟨.link [] [] none, rfl⟩
    | LinkReference => exact ⟨.linkReference [] [] none .Full, rfl⟩
    | Image => exact ⟨.image [] none none, rfl⟩
    | ImageReference => exact ⟨.imageReference [] none none, rfl⟩
    | Paragraph => exact absurd h (by decide)
    | Delete => exact absurd h (by decide)
    | FootnoteDefinition => exact absurd h (by decide)
    | FootnoteReference => exact absurd h (by decide)
    | Table => exact absurd h (by decide)
    | TableRow => exact absurd h (by decide)
    | TableCell => exact absurd h (by decide)

/-- C4 counterexample: the claim says a run of plain dashes of length
greater than 1 lexes as `Dashes`; on the two-dash input `"--"` the code
compares `range.len() > 1` where `range` excludes the dispatched first
character (`range = 1..2`, length 1), so `"--"` lexes as
`PlainText(0..2)`, not `Dashes(0..2)`. -/
theorem c4_counterexample :
    token_at ['-', '-'] 0 = some (.PlainText ⟨0, 2⟩) ∧
    Token.PlainText ⟨0, 2⟩ ≠ Token.Dashes ⟨0, 2⟩ := by
  decide

/-- C5 counterexample: the claim says only the single reserved character
right after a backslash is literal and a later unescaped reserved
character still ends the run; on `"a\*b*c"` the `escaping` flag of
`read_plaintext` is never cleared, so the second `*` (not preceded by a
backslash) is also absorbed and the whole input is one
`PlainText(0..6)` followed directly by `Eof` — the claim predicts the run
to end at byte 4. -/
theorem c5_counterexample :
    token_at ['a', '\\', '*', 'b', '*', 'c'] 0 = some (.PlainText ⟨0, 6⟩) ∧
    token_at ['a', '\\', '*', 'b', '*', 'c'] 1 = some (.Eof ⟨6, 6⟩) ∧
    token_at ['a', '\\', '*', 'b', '*', 'c'] 0 ≠ some (.PlainText ⟨0, 4⟩) := by
  decide

/-- C6 counterexample: the claim says `rollback_to` succeeds for every
previously observed token, including those touching the end of the input.
On source `"a"` the first observed token is `PlainText(0..1)`, and
`rollback_to` on it fails the assertion `range.end < self._source.len()`
(1 < 1), i.e. panics. -/
theorem c6_counterexample :
    nth_token ['a'] 0 = .ok (.PlainText ⟨0, 1⟩, ⟨['a'], [], none⟩) ∧
    rollback_to ⟨['a'], [], none⟩ (.PlainText ⟨0, 1⟩) = none := by
  decide

/-! Supporting lemmas about byte lengths and `byte_suffix`. -/

theorem utf8Len_nil : utf8Len [] = 0 := rfl

theorem utf8Len_cons (c : Char) (s : List Char) :
    utf8Len (c :: s) = c.utf8Size + utf8Len s := by
  simp [utf8Len]

theorem utf8Len_append (a b : List Char) :
    utf8Len (a ++ b) = utf8Len a + utf8Len b := by
  simp [utf8Len]

/-- Slicing a string at the byte length of a prefix yields the rest. -/
theorem byte_suffix_utf8Len :
    ∀ (r₁ r₂ : List Char), byte_suffix (r₁ ++ r₂) (utf8Len r₁) = some r₂ := by
  intro r₁
  induction r₁ with
  | nil =>
    intro r₂
    have h0 : utf8Len [] = 0 := rfl
    rw [List.nil_append, h0]
    cases r₂ <;> rfl
  | cons c cs ih =>
    intro r₂
    have hpos := Char.utf8Size_pos c
    have hlen : utf8Len (c :: cs) = c.utf8Size + utf8Len cs := utf8Len_cons c cs
    obtain ⟨m, hm⟩ : ∃ m, utf8Len (c :: cs) = m + 1 := ⟨utf8Len (c :: cs) - 1, by omega⟩
    rw [List.cons_append, hm]
    unfold byte_suffix
    rw [if_pos (by omega)]
    have hsub : m + 1 - c.utf8Size = utf8Len cs := by omega
    rw [hsub]
    exact ih r₂

/-- C6 amended: for a token `t` whose start offset is a character boundary
of the source and whose range lies strictly inside it (both `assert!`s
hold), `rollback_to` succeeds: it re-seats the iterator at `t`'s start
offset and caches `t` as the lookahead, so the next `next_token` returns
`t` itself while the scan position stays at `t`'s start — subsequent
tokens are therefore re-lexed from `t`'s start (producing `t`'s span
again) rather than continuing after `t`; a token whose range touches the
end of the input (the final token, or `Eof`) is instead rejected by the
assertions, i.e. the call aborts. -/
theorem c6_amended_rollback (l : Lexer) (t : Token) (r₁ r₂ : List Char)
    (hsrc : l.source = r₁ ++ r₂)
    (hstart : t.to_range.start = utf8Len r₁)
    (h1 : t.to_range.start < utf8Len l.source)
    (h2 : t.to_range.stop < utf8Len l.source) :
    rollback_to l t = some ⟨l.source, r₂, some t⟩ ∧
    next_token ⟨l.source, r₂, some t⟩ = .ok (t, ⟨l.source, r₂, none⟩) ∧
    Lexer.offset ⟨l.source, r₂, none⟩ = t.to_range.start := by
  refine ⟨?_, ?_, ?_⟩
  · unfold rollback_to
    rw [if_pos h1, if_pos h2, hstart, hsrc, byte_suffix_utf8Len]
  · simp [next_token, next_token_fuel]
  · simp only [Lexer.offset, hsrc, utf8Len_append, hstart]
    omega

/-- Witness for C6 amended: source `"a b"`, rolling back to the observed
first token `PlainText(0..1)`. -/
theorem c6_amended_rollback_witness :
    rollback_to ⟨['a', ' ', 'b'], [], none⟩ (.PlainText ⟨0, 1⟩) =
      some ⟨['a', ' ', 'b'], ['a', ' ', 'b'], some (.PlainText ⟨0, 1⟩)⟩ ∧
    next_token ⟨['a', ' ', 'b'], ['a', ' ', 'b'], some (.PlainText ⟨0, 1⟩)⟩ =
      .ok (.PlainText ⟨0, 1⟩, ⟨['a', ' ', 'b'], ['a', ' ', 'b'], none⟩) ∧
    Lexer.offset ⟨['a', ' ', 'b'], ['a', ' ', 'b'], none⟩ = 0 :=
  c6_amended_rollback ⟨['a', ' ', 'b'], [], none⟩ (.PlainText ⟨0, 1⟩) [] ['a', ' ', 'b']
    rfl rfl (by decide) (by decide)

/-! Supporting development for C5: a reference recursion computing where
`read_plaintext`'s scan stops. -/

/-- Where the `read_plaintext` scan stops, written as the amended claim
describes it: the suffix of the input beginning at the first character
that ends the run.  With the escape flag down, the run ends at the first
whitespace, line break, or reserved character — except that a backslash
raises the flag instead of ending the run; with the flag up (sticky: it is
never lowered again), only whitespace or a line break ends the run, every
reserved character being absorbed as literal text. -/
def pt_spec : Bool → List Char → List Char
  | _, [] => []
  | esc, c :: rest =>
    if c ∈ WHITESPACECHARS ∨ c ∈ LINEBREAKCHARS then c :: rest
    else if c ∈ KEYCHARS then
      if esc then pt_spec esc rest
      else if c = '\\' then pt_spec true rest
      else c :: rest
    else pt_spec esc rest

theorem keychar_facts :
    ∀ c ∈ KEYCHARS, c.utf8Size = 1 ∧ c ∉ WHITESPACECHARS ∧ c ∉ LINEBREAKCHARS := by
  intro c hc
  fin_cases hc <;> exact ⟨by decide, by decide, by decide⟩

theorem wslb_size (c : Char) (h : c ∈ WHITESPACECHARS ∨ c ∈ LINEBREAKCHARS) :
    c.utf8Size = 1 := by
  rcases h with h | h <;> fin_cases h <;> decide

/-- The `read_plaintext` scan never panics and stops exactly where
`pt_spec` says. -/
theorem read_until_go_plaintext :
    ∀ (rem : List Char) (esc : Bool),
      ∃ esc', read_until_go plaintext_f esc rem = some (esc', pt_spec esc rem) := by
  intro rem
  induction rem with
  | nil => intro esc; exact ⟨esc, rfl⟩
  | cons c rest ih =>
    intro esc
    by_cases hk : c ∈ KEYCHARS
    · obtain ⟨hsz, hw, hl⟩ := keychar_facts c hk
      have hwl : ¬(c ∈ WHITESPACECHARS ∨ c ∈ LINEBREAKCHARS) := by tauto
      by_cases hb : c = '\\' ∧ ¬esc
      · obtain ⟨esc', h⟩ := ih true
        refine ⟨esc', ?_⟩
        have hf : plaintext_f esc c = (true, true) := by
          unfold plaintext_f
          rw [if_pos hk, if_pos hb]
        simp only [read_until_go, pt_spec, hf, h]
        rw [if_neg hwl, if_pos hk, if_neg (by simp [hb.2] : ¬(esc = true)), if_pos hb.1]
      · cases esc with
        | true =>
          obtain ⟨esc', h⟩ := ih true
          refine ⟨esc', ?_⟩
          have hf : plaintext_f true c = (true, true) := by
            unfold plaintext_f
            rw [if_pos hk, if_neg (by simp : ¬(c = '\\' ∧ ¬(true = true)))]
          simp only [read_until_go, pt_spec, hf, h]
          rw [if_neg hwl, if_pos hk]
          simp
        | false =>
          have hc : c ≠ '\\' := fun hcc => hb ⟨hcc, by simp⟩
          refine ⟨false, ?_⟩
          have hf : plaintext_f false c = (false, false) := by
            unfold plaintext_f
            rw [if_pos hk, if_neg hb]
          simp only [read_until_go, pt_spec, hf]
          rw [if_pos hsz, if_neg hwl, if_pos hk,
            if_neg (by simp : ¬(false = true)), if_neg hc]
    · by_cases hw : c ∈ WHITESPACECHARS
      · refine ⟨esc, ?_⟩
        have hf : plaintext_f esc c = (esc, false) := by
          unfold plaintext_f
          rw [if_neg hk, if_pos hw]
        simp only [read_until_go, pt_spec, hf]
        rw [if_pos (wslb_size c (Or.inl hw)), if_pos (Or.inl hw)]
      · by_cases hl : c ∈ LINEBREAKCHARS
        · refine ⟨esc, ?_⟩
          have hf : plaintext_f esc c = (esc, false) := by
            unfold plaintext_f
            rw [if_neg hk, if_neg hw, if_pos hl]
          simp only [read_until_go, pt_spec, hf]
          rw [if_pos (wslb_size c (Or.inr hl)), if_pos (Or.inr hl)]
        · obtain ⟨esc', h⟩ := ih esc
          refine ⟨esc', ?_⟩
          have hf : plaintext_f esc c = (esc, true) := by
            unfold plaintext_f
            rw [if_neg hk, if_neg hw, if_neg hl]
          simp only [read_until_go, pt_spec, hf, h]
          rw [if_neg (by tauto : ¬(c ∈ WHITESPACECHARS ∨ c ∈ LINEBREAKCHARS)), if_neg hk]

/-- C5 amended: inside a `PlainText` run a backslash is absorbed and
raises a sticky escape flag: the reserved character right after it is
absorbed as literal text, but so is every later reserved character of the
same run (the flag is never cleared), so an unescaped reserved character
only ends the run if no backslash occurred before it; a backslash with no
following reserved character is absorbed as ordinary text; the scan
itself never fails, and the produced span ends exactly at the first
whitespace, line break, or pre-backslash reserved character. -/
theorem c5_amended_sticky_escape :
    ∀ (src rem : List Char) (start : Nat),
      read_plaintext src rem start =
        some (.PlainText ⟨start, offAt src (pt_spec false rem)⟩, pt_spec false rem) := by
  intro src rem start
  unfold read_plaintext
  obtain ⟨esc', h⟩ := read_until_go_plaintext rem false
  rw [h]

/-! Supporting development for C4: classification of maximal dash/colon
runs. -/

/-- The run the claim describes: an optional leading colon, `k` dashes, an
optional trailing colon. -/
def run_str (lead : Bool) (k : Nat) (trail : Bool) : List Char :=
  (cond lead [':'] []) ++ List.replicate k '-' ++ (cond trail [':'] [])

/-- Total length of such a run. -/
def run_total (lead : Bool) (k : Nat) (trail : Bool) : Nat :=
  (cond lead 1 0) + k + (cond trail 1 0)

/-- The token the amended claim predicts for a whole-input run: runs of
total length at most 2 become `PlainText`; longer runs become
`Align(Center)`, `Align(Left)`, `Align(Right)` or `Dashes` according to
the colon shape. -/
def align_expected (lead : Bool) (k : Nat) (trail : Bool) : Token :=
  let total := run_total lead k trail
  if total ≤ 2 then .PlainText ⟨0, total⟩
  else if lead ∧ trail then .Align ⟨0, total⟩ .Center
  else if lead then .Align ⟨0, total⟩ .Left
  else if trail then .Align ⟨0, total⟩ .Right
  else .Dashes ⟨0, total⟩

theorem utf8Len_replicate_dash : ∀ j, utf8Len (List.replicate j '-') = j := by
  intro j
  induction j with
  | zero => rfl
  | succ n ih =>
    rw [List.replicate_succ, utf8Len_cons, ih]
    have hd : ('-' : Char).utf8Size = 1 := by decide
    omega

theorem read_until_go_align_dashes_only :
    ∀ (j : Nat) (s : Bool), read_until_go align_f s (List.replicate j '-') = some (s, []) := by
  intro j
  induction j with
  | zero => intro s; rfl
  | succ n ih =>
    intro s
    have hf : align_f s '-' = (s, true) := by
      unfold align_f
      rw [if_pos rfl]
    rw [List.replicate_succ]
    simp only [read_until_go, hf]
    exact ih s

theorem read_until_go_align_replicate :
    ∀ (j : Nat) (s : Bool) (t : List Char),
      read_until_go align_f s (List.replicate j '-' ++ t) = read_until_go align_f s t := by
  intro j
  induction j with
  | zero => intro s t; rfl
  | succ n ih =>
    intro s t
    have hf : align_f s '-' = (s, true) := by
      unfold align_f
      rw [if_pos rfl]
    rw [List.replicate_succ, List.cons_append]
    simp only [read_until_go, hf]
    exact ih s t

theorem read_until_go_align_dashes_colon :
    ∀ j : Nat, read_until_go align_f false (List.replicate j '-' ++ [':']) = some (true, []) := by
  intro j
  rw [read_until_go_align_replicate]
  decide

theorem read_align_case_dashes (m : Nat) :
    read_align_type_or_plaintext ('-' :: List.replicate (m+2) '-') (List.replicate (m+2) '-') 0 false =
      some (.Dashes ⟨0, m+3⟩, []) := by
  have hsl : utf8Len ('-' :: List.replicate (m+2) '-') = m+3 := by
    rw [utf8Len_cons, utf8Len_replicate_dash]
    have hd : ('-' : Char).utf8Size = 1 := by decide
    omega
  have hb : offAt ('-' :: List.replicate (m+2) '-') (List.replicate (m+2) '-') = 1 := by
    unfold offAt
    rw [hsl, utf8Len_replicate_dash]
    omega
  have he : offAt ('-' :: List.replicate (m+2) '-') [] = m+3 := by
    unfold offAt
    rw [hsl, utf8Len_nil]
    omega
  unfold read_align_type_or_plaintext
  rw [read_until_go_align_dashes_only]
  simp only [hb, he]
  rw [if_neg (by simp), if_pos ⟨by simp, by omega⟩]
  simp

theorem read_align_case_right (m : Nat) :
    read_align_type_or_plaintext ('-' :: (List.replicate (m+1) '-' ++ [':']))
      (List.replicate (m+1) '-' ++ [':']) 0 false =
      some (.Align ⟨0, m+3⟩ .Right, []) := by
  have hone : utf8Len [':'] = 1 := by decide
  have hsl : utf8Len ('-' :: (List.replicate (m+1) '-' ++ [':'])) = m+3 := by
    rw [utf8Len_cons, utf8Len_append, utf8Len_replicate_dash, hone]
    have hd : ('-' : Char).utf8Size = 1 := by decide
    omega
  have hb : offAt ('-' :: (List.replicate (m+1) '-' ++ [':'])) (List.replicate (m+1) '-' ++ [':']) = 1 := by
    unfold offAt
    rw [hsl, utf8Len_append, utf8Len_replicate_dash, hone]
    omega
  have he : offAt ('-' :: (List.replicate (m+1) '-' ++ [':'])) [] = m+3 := by
    unfold offAt
    rw [hsl, utf8Len_nil]
    omega
  unfold read_align_type_or_plaintext
  rw [read_until_go_align_dashes_colon]
  simp only [hb, he]
  rw [if_neg (by simp), if_pos ⟨by simp, by omega⟩]
  simp

theorem read_align_case_left (m : Nat) :
    read_align_type_or_plaintext (':' :: List.replicate (m+2) '-') (List.replicate (m+2) '-') 0 true =
      some (.Align ⟨0, m+3⟩ .Left, []) := by
  have hsl : utf8Len (':' :: List.replicate (m+2) '-') = m+3 := by
    rw [utf8Len_cons, utf8Len_replicate_dash]
    have hc : (':' : Char).utf8Size = 1 := by decide
    omega
  have hb : offAt (':' :: List.replicate (m+2) '-') (List.replicate (m+2) '-') = 1 := by
    unfold offAt
    rw [hsl, utf8Len_replicate_dash]
    omega
  have he : offAt (':' :: List.replicate (m+2) '-') [] = m+3 := by
    unfold offAt
    rw [hsl, utf8Len_nil]
    omega
  unfold read_align_type_or_plaintext
  rw [read_until_go_align_dashes_only]
  simp only [hb, he]
  rw [if_pos ⟨trivial, by omega⟩]
  simp

theorem read_align_case_center (m : Nat) :
    read_align_type_or_plaintext (':' :: (List.replicate (m+1) '-' ++ [':']))
      (List.replicate (m+1) '-' ++ [':']) 0 true =
      some (.Align ⟨0, m+3⟩ .Center, []) := by
  have hone : utf8Len [':'] = 1 := by decide
  have hsl : utf8Len (':' :: (List.replicate (m+1) '-' ++ [':'])) = m+3 := by
    rw [utf8Len_cons, utf8Len_append, utf8Len_replicate_dash, hone]
    have hc : (':' : Char).utf8Size = 1 := by decide
    omega
  have hb : offAt (':' :: (List.replicate (m+1) '-' ++ [':'])) (List.replicate (m+1) '-' ++ [':']) = 1 := by
    unfold offAt
    rw [hsl, utf8Len_append, utf8Len_replicate_dash, hone]
    omega
  have he : offAt (':' :: (List.replicate (m+1) '-' ++ [':'])) [] = m+3 := by
    unfold offAt
    rw [hsl, utf8Len_nil]
    omega
  unfold read_align_type_or_plaintext
  rw [read_until_go_align_dashes_colon]
  simp only [hb, he]
  rw [if_pos ⟨trivial, by omega⟩]
  simp

theorem next_fuel_dashes (fuel m : Nat) :
    next_token_fuel (fuel + 1)
      ⟨'-' :: List.replicate (m+2) '-', '-' :: List.replicate (m+2) '-', none⟩ =
      .ok (.Dashes ⟨0, m+3⟩, ⟨'-' :: List.replicate (m+2) '-', [], none⟩) := by
  have hstart : Lexer.offset ⟨'-' :: List.replicate (m+2) '-', '-' :: List.replicate (m+2) '-', none⟩ = 0 := by
    simp [Lexer.offset]
  simp only [next_token_fuel, hstart]
  rw [if_neg (by decide), if_neg (by decide), if_neg (by decide)]
  simp only [if_true]
  rw [read_align_case_dashes m]

theorem next_fuel_right (fuel m : Nat) :
    next_token_fuel (fuel + 1)
      ⟨'-' :: (List.replicate (m+1) '-' ++ [':']), '-' :: (List.replicate (m+1) '-' ++ [':']), none⟩ =
      .ok (.Align ⟨0, m+3⟩ .Right, ⟨'-' :: (List.replicate (m+1) '-' ++ [':']), [], none⟩) := by
  have hstart : Lexer.offset ⟨'-' :: (List.replicate (m+1) '-' ++ [':']),
      '-' :: (List.replicate (m+1) '-' ++ [':']), none⟩ = 0 := by
    simp [Lexer.offset]
  simp only [next_token_fuel, hstart]
  rw [if_neg (by decide), if_neg (by decide), if_neg (by decide)]
  simp only [if_true]
  rw [read_align_case_right m]

theorem next_fuel_left (fuel m : Nat) :
    next_token_fuel (fuel + 1)
      ⟨':' :: List.replicate (m+2) '-', ':' :: List.replicate (m+2) '-', none⟩ =
      .ok (.Align ⟨0, m+3⟩ .Left, ⟨':' :: List.replicate (m+2) '-', [], none⟩) := by
  have hstart : Lexer.offset ⟨':' :: List.replicate (m+2) '-', ':' :: List.replicate (m+2) '-', none⟩ = 0 := by
    simp [Lexer.offset]
  simp only [next_token_fuel, hstart]
  rw [if_neg (by decide), if_neg (by decide), if_neg (by decide), if_neg (by decide)]
  simp only [if_true]
  rw [read_align_case_left m]

theorem next_fuel_center (fuel m : Nat) :
    next_token_fuel (fuel + 1)
      ⟨':' :: (List.replicate (m+1) '-' ++ [':']), ':' :: (List.replicate (m+1) '-' ++ [':']), none⟩ =
      .ok (.Align ⟨0, m+3⟩ .Center, ⟨':' :: (List.replicate (m+1) '-' ++ [':']), [], none⟩) := by
  have hstart : Lexer.offset ⟨':' :: (List.replicate (m+1) '-' ++ [':']),
      ':' :: (List.replicate (m+1) '-' ++ [':']), none⟩ = 0 := by
    simp [Lexer.offset]
  simp only [next_token_fuel, hstart]
  rw [if_neg (by decide), if_neg (by decide), if_neg (by decide), if_neg (by decide)]
  simp only [if_true]
  rw [read_align_case_center m]

/-- C4 amended: for a nonempty maximal whole-input run of dashes with at
most one leading and at most one trailing colon, the token produced is:
leading and trailing colon with run length > 2 → `Align(Center)`; leading
colon only with run length > 2 → `Align(Left)`; trailing colon only with
run length > 2 → `Align(Right)`; plain dashes only with run length > 2 →
`Dashes`; any run of length 1 or 2 → `PlainText` (the code's
`range.len() > 1` test measures the run *minus its first character*, so
the claimed threshold of "length > 1" is off by one). -/
theorem c4_amended_align_classification :
    ∀ (lead : Bool) (k : Nat) (trail : Bool),
      0 < run_total lead k trail →
      token_at (run_str lead k trail) 0 = some (align_expected lead k trail) := by
  intro lead k trail hpos
  cases lead with
  | false =>
    cases trail with
    | false =>
      rcases k with _ | _ | _ | m
      · exact absurd hpos (by decide)
      · decide
      · decide
      · have hsrc : run_str false (m+3) false = '-' :: List.replicate (m+2) '-' := by
          show ([] : List Char) ++ List.replicate ((m+2)+1) '-' ++ ([] : List Char) = _
          rw [List.append_nil, List.replicate_succ, List.nil_append]
        rw [hsrc]
        unfold token_at nth_token next_token Lexer.new
        rw [next_fuel_dashes]
        simp only [align_expected, run_total, cond]
        rw [if_neg (by omega)]
        simp
    | true =>
      rcases k with _ | _ | m
      · decide
      · decide
      · have hsrc : run_str false (m+2) true = '-' :: (List.replicate (m+1) '-' ++ [':']) := by
          unfold run_str
          rfl
        rw [hsrc]
        unfold token_at nth_token next_token Lexer.new
        rw [next_fuel_right]
        simp only [align_expected, run_total, cond]
        rw [if_neg (by omega)]
        simp
  | true =>
    cases trail with
    | false =>
      rcases k with _ | _ | m
      · decide
      · decide
      · have hsrc : run_str true (m+2) false = ':' :: List.replicate (m+2) '-' := by
          show [':'] ++ List.replicate (m+2) '-' ++ ([] : List Char) = _
          rw [List.append_nil, List.singleton_append]
        rw [hsrc]
        unfold token_at nth_token next_token Lexer.new
        rw [next_fuel_left]
        simp only [align_expected, run_total, cond]
        rw [if_neg (by omega)]
        simp
        omega
    | true =>
      rcases k with _ | m
      · decide
      · have hsrc : run_str true (m+1) true = ':' :: (List.replicate (m+1) '-' ++ [':']) := by
          unfold run_str
          rfl
        rw [hsrc]
        unfold token_at nth_token next_token Lexer.new
        rw [next_fuel_center]
        simp only [align_expected, run_total, cond]
        rw [if_neg (by omega)]
        simp
        omega

/-! Supporting development for C10: no scan path of the lexer constructs a
`GreaterThans` token. -/

/-- Whether a token is the `GreaterThans` variant. -/
def is_greater_thans : Token → Bool
  | .GreaterThans _ => true
  | _ => false

theorem read_pounds_not_gt {src rem : List Char} {start : Nat} {t : Token} {rem' : List Char}
    (h : read_pounds src rem start = some (t, rem')) : is_greater_thans t = false := by
  unfold read_pounds at h
  split at h
  · exact absurd h (by simp)
  · simp only [Option.some.injEq, Prod.mk.injEq] at h
    rw [← h.1]
    rfl

theorem read_asterisks_not_gt {src rem : List Char} {start : Nat} {t : Token} {rem' : List Char}
    (h : read_asterisks src rem start = some (t, rem')) : is_greater_thans t = false := by
  unfold read_asterisks at h
  split at h
  · exact absurd h (by simp)
  · simp only [Option.some.injEq, Prod.mk.injEq] at h
    rw [← h.1]
    rfl

theorem read_underscores_not_gt {src rem : List Char} {start : Nat} {t : Token} {rem' : List Char}
    (h : read_underscores src rem start = some (t, rem')) : is_greater_thans t = false := by
  unfold read_underscores at h
  split at h
  · exact absurd h (by simp)
  · simp only [Option.some.injEq, Prod.mk.injEq] at h
    rw [← h.1]
    rfl

theorem read_pluses_not_gt {src rem : List Char} {start : Nat} {t : Token} {rem' : List Char}
    (h : read_pluses src rem start = some (t, rem')) : is_greater_thans t = false := by
  unfold read_pluses at h
  split at h
  · exact absurd h (by simp)
  · simp only [Option.some.injEq, Prod.mk.injEq] at h
    rw [← h.1]
    rfl

theorem read_backticks_not_gt {src rem : List Char} {start : Nat} {t : Token} {rem' : List Char}
    (h : read_backticks src rem start = some (t, rem')) : is_greater_thans t = false := by
  unfold read_backticks at h
  split at h
  · exact absurd h (by simp)
  · simp only [Option.some.injEq, Prod.mk.injEq] at h
    rw [← h.1]
    rfl

theorem read_whitespaces_not_gt {src rem : List Char} {start : Nat} {t : Token} {rem' : List Char}
    (h : read_whitespaces src rem start = some (t, rem')) : is_greater_thans t = false := by
  unfold read_whitespaces at h
  split at h
  · exact absurd h (by simp)
  · simp only [Option.some.injEq, Prod.mk.injEq] at h
    rw [← h.1]
    rfl

theorem read_linebreaks_not_gt {src rem : List Char} {start : Nat} {t : Token} {rem' : List Char}
    (h : read_linebreaks src rem start = some (t, rem')) : is_greater_thans t = false := by
  unfold read_linebreaks at h
  split at h
  · exact absurd h (by simp)
  · simp only [Option.some.injEq, Prod.mk.injEq] at h
    rw [← h.1]
    rfl

theorem read_plaintext_not_gt {src rem : List Char} {start : Nat} {t : Token} {rem' : List Char}
    (h : read_plaintext src rem start = some (t, rem')) : is_greater_thans t = false := by
  unfold read_plaintext at h
  split at h
  · exact absurd h (by simp)
  · simp only [Option.some.injEq, Prod.mk.injEq] at h
    rw [← h.1]
    rfl

theorem read_align_not_gt {src rem : List Char} {start : Nat} {prefixed : Bool} {t : Token}
    {rem' : List Char}
    (h : read_align_type_or_plaintext src rem start prefixed = some (t, rem')) :
    is_greater_thans t = false := by
  cases t <;> try rfl
  exfalso
  unfold read_align_type_or_plaintext at h
  split at h
  · exact absurd h (by simp)
  · rename_i suffix rem2 heq
    by_cases hA : prefixed = true ∧ offAt src rem2 - offAt src rem > 1
    · rw [if_pos hA] at h
      cases suffix <;> simp at h
    · rw [if_neg hA] at h
      by_cases hB : ¬prefixed = true ∧ offAt src rem2 - offAt src rem > 1
      · rw [if_pos hB] at h
        cases suffix <;> simp at h
      · rw [if_neg hB] at h
        simp at h

/-- The lookahead cache, when filled, holds no `GreaterThans` token. -/
def la_ok (l : Lexer) : Prop :=
  ∀ t, l.lookahead = some t → is_greater_thans t = false

theorem next_token_fuel_no_gt :
    ∀ (fuel : Nat) (l : Lexer), la_ok l → ∀ t l', next_token_fuel fuel l = .ok (t, l') →
      is_greater_thans t = false ∧ la_ok l' := by
  intro fuel
  induction fuel with
  | zero =>
    intro l _ t l' h
    exact absurd h (by simp [next_token_fuel])
  | succ n ih =>
    intro l hla t l' h
    unfold next_token_fuel at h
    cases hl : l.lookahead with
    | some t0 =>
      simp only [hl] at h
      simp only [POut.ok.injEq, Prod.mk.injEq] at h
      obtain ⟨rfl, rfl⟩ := h
      exact ⟨hla t0 hl, by intro u hu; simp at hu⟩
    | none =>
      simp only [hl] at h
      cases hrem : l.rem with
      | nil =>
        simp only [hrem] at h
        simp only [POut.ok.injEq, Prod.mk.injEq] at h
        obtain ⟨rfl, rfl⟩ := h
        exact ⟨rfl, by intro u hu; rw [hl] at hu; exact absurd hu (by simp)⟩
      | cons c rest =>
        simp only [hrem] at h
        by_cases h1 : c = '#'
        · rw [if_pos h1] at h
          cases hp : read_pounds l.source rest l.offset with
          | none => simp [hp] at h
          | some p =>
            obtain ⟨t2, rem2⟩ := p
            simp only [hp, POut.ok.injEq, Prod.mk.injEq] at h
            obtain ⟨rfl, rfl⟩ := h
            exact ⟨read_pounds_not_gt hp, by intro u hu; simp at hu⟩
        · rw [if_neg h1] at h
          by_cases h2 : c = '*'
          · rw [if_pos h2] at h
            cases hp : read_asterisks l.source rest l.offset with
            | none => simp [hp] at h
            | some p =>
              obtain ⟨t2, rem2⟩ := p
              simp only [hp, POut.ok.injEq, Prod.mk.injEq] at h
              obtain ⟨rfl, rfl⟩ := h
              exact ⟨read_asterisks_not_gt hp, by intro u hu; simp at hu⟩
          · rw [if_neg h2] at h
            by_cases h3 : c = '+'
            · rw [if_pos h3] at h
              cases hp : read_pluses l.source rest l.offset with
              | none => simp [hp] at h
              | some p =>
                obtain ⟨t2, rem2⟩ := p
                simp only [hp, POut.ok.injEq, Prod.mk.injEq] at h
                obtain ⟨rfl, rfl⟩ := h
                exact ⟨read_pluses_not_gt hp, by intro u hu; simp at hu⟩
            · rw [if_neg h3] at h
              by_cases h4 : c = '-'
              · rw [if_pos h4] at h
                cases hp : read_align_type_or_plaintext l.source rest l.offset false with
                | none => simp [hp] at h
                | some p =>
                  obtain ⟨t2, rem2⟩ := p
                  simp only [hp, POut.ok.injEq, Prod.mk.injEq] at h
                  obtain ⟨rfl, rfl⟩ := h
                  exact ⟨read_align_not_gt hp, by intro u hu; simp at hu⟩
              · rw [if_neg h4] at h
                by_cases h5 : c = ':'
                · rw [if_pos h5] at h
                  cases hp : read_align_type_or_plaintext l.source rest l.offset true with
                  | none => simp [hp] at h
                  | some p =>
                    obtain ⟨t2, rem2⟩ := p
                    simp only [hp] at h
                    cases t2 with
                    | PlainText r =>
                      cases hn : next_token_fuel n ⟨l.source, rem2, none⟩ with
                      | panic => simp [hn] at h
                      | fuelOut => simp [hn] at h
                      | ok q =>
                        obtain ⟨nt, l₂⟩ := q
                        have hih := ih ⟨l.source, rem2, none⟩ (by intro u hu; simp at hu) nt l₂ hn
                        simp only [hn] at h
                        cases nt with
                        | PlainText nr =>
                          simp only [POut.ok.injEq, Prod.mk.injEq] at h
                          obtain ⟨rfl, rfl⟩ := h
                          exact ⟨rfl, by intro u hu; simp at hu⟩
                        | GreaterThans nr => exact absurd hih.1 (by simp [is_greater_thans])
                        | Pounds nr =>
                          simp only [POut.ok.injEq, Prod.mk.injEq] at h
                          obtain ⟨rfl, rfl⟩ := h
                          exact ⟨rfl, by intro u hu; simp at hu; rw [← hu]; exact hih.1⟩
                        | Eof nr =>
                          simp only [POut.ok.injEq, Prod.mk.injEq] at h
                          obtain ⟨rfl, rfl⟩ := h
                          exact ⟨rfl, by intro u hu; simp at hu; rw [← hu]; exact hih.1⟩
                        | Align nr a =>
                          simp only [POut.ok.injEq, Prod.mk.injEq] at h
                          obtain ⟨rfl, rfl⟩ := h
                          exact ⟨rfl, by intro u hu; simp at hu; rw [← hu]; exact hih.1⟩
                        | Asterisks nr =>
                          simp only [POut.ok.injEq, Prod.mk.injEq] at h
                          obtain ⟨rfl, rfl⟩ := h
                          exact ⟨rfl, by intro u hu; simp at hu; rw [← hu]; exact hih.1⟩
                        | Underscores nr =>
                          simp only [POut.ok.injEq, Prod.mk.injEq] at h
                          obtain ⟨rfl, rfl⟩ := h
                          exact ⟨rfl, by intro u hu; simp at hu; rw [← hu]; exact hih.1⟩
                        | Dashes nr =>
                          simp only [POut.ok.injEq, Prod.mk.injEq] at h
                          obtain ⟨rfl, rfl⟩ := h
                          exact ⟨rfl, by intro u hu; simp at hu; rw [← hu]; exact hih.1⟩
                        | Pluses nr =>
                          simp only [POut.ok.injEq, Prod.mk.injEq] at h
                          obtain ⟨rfl, rfl⟩ := h
                          exact ⟨rfl, by intro u hu; simp at hu; rw [← hu]; exact hih.1⟩
                        | Backticks nr =>
                          simp only [POut.ok.injEq, Prod.mk.injEq] at h
                          obtain ⟨rfl, rfl⟩ := h
                          exact ⟨rfl, by intro u hu; simp at hu; rw [← hu]; exact hih.1⟩
                        | LineBreaks nr =>
                          simp only [POut.ok.injEq, Prod.mk.injEq] at h
                          obtain ⟨rfl, rfl⟩ := h
                          exact ⟨rfl, by intro u hu; simp at hu; rw [← hu]; exact hih.1⟩
                        | WhiteSpaces nr =>
                          simp only [POut.ok.injEq, Prod.mk.injEq] at h
                          obtain ⟨rfl, rfl⟩ := h
                          exact ⟨rfl, by intro u hu; simp at hu; rw [← hu]; exact hih.1⟩
                        | KeyChar nr =>
                          simp only [POut.ok.injEq, Prod.mk.injEq] at h
                          obtain ⟨rfl, rfl⟩ := h
                          exact ⟨rfl, by intro u hu; simp at hu; rw [← hu]; exact hih.1⟩
                    | Pounds r =>
                      simp only [POut.ok.injEq, Prod.mk.injEq] at h
                      obtain ⟨rfl, rfl⟩ := h
                      exact ⟨read_align_not_gt hp, by intro u hu; simp at hu⟩
                    | Eof r =>
                      simp only [POut.ok.injEq, Prod.mk.injEq] at h
                      obtain ⟨rfl, rfl⟩ := h
                      exact ⟨read_align_not_gt hp, by intro u hu; simp at hu⟩
                    | Align r a =>
                      simp only [POut.ok.injEq, Prod.mk.injEq] at h
                      obtain ⟨rfl, rfl⟩ := h
                      exact ⟨read_align_not_gt hp, by intro u hu; simp at hu⟩
                    | GreaterThans r =>
                      exact absurd (read_align_not_gt hp) (by simp [is_greater_thans])
                    | Asterisks r =>
                      simp only [POut.ok.injEq, Prod.mk.injEq] at h
                      obtain ⟨rfl, rfl⟩ := h
                      exact ⟨read_align_not_gt hp, by intro u hu; simp at hu⟩
                    | Underscores r =>
                      simp only [POut.ok.injEq, Prod.mk.injEq] at h
                      obtain ⟨rfl, rfl⟩ := h
                      exact ⟨read_align_not_gt hp, by intro u hu; simp at hu⟩
                    | Dashes r =>
                      simp only [POut.ok.injEq, Prod.mk.injEq] at h
                      obtain ⟨rfl, rfl⟩ := h
                      exact ⟨read_align_not_gt hp, by intro u hu; simp at hu⟩
                    | Pluses r =>
                      simp only [POut.ok.injEq, Prod.mk.injEq] at h
                      obtain ⟨rfl, rfl⟩ := h
                      exact ⟨read_align_not_gt hp, by intro u hu; simp at hu⟩
                    | Backticks r =>
                      simp only [POut.ok.injEq, Prod.mk.injEq] at h
                      obtain ⟨rfl, rfl⟩ := h
                      exact ⟨read_align_not_gt hp, by intro u hu; simp at hu⟩
                    | LineBreaks r =>
                      simp only [POut.ok.injEq, Prod.mk.injEq] at h
                      obtain ⟨rfl, rfl⟩ := h
                      exact ⟨read_align_not_gt hp, by intro u hu; simp at hu⟩
                    | WhiteSpaces r =>
                      simp only [POut.ok.injEq, Prod.mk.injEq] at h
                      obtain ⟨rfl, rfl⟩ := h
                      exact ⟨read_align_not_gt hp, by intro u hu; simp at hu⟩
                    | KeyChar r =>
                      simp only [POut.ok.injEq, Prod.mk.injEq] at h
                      obtain ⟨rfl, rfl⟩ := h
                      exact ⟨read_align_not_gt hp, by intro u hu; simp at hu⟩
                · rw [if_neg h5] at h
                  by_cases h6 : c = '_'
                  · rw [if_pos h6] at h
                    cases hp : read_underscores l.source rest l.offset with
                    | none => simp [hp] at h
                    | some p =>
                      obtain ⟨t2, rem2⟩ := p
                      simp only [hp, POut.ok.injEq, Prod.mk.injEq] at h
                      obtain ⟨rfl, rfl⟩ := h
                      exact ⟨read_underscores_not_gt hp, by intro u hu; simp at hu⟩
                  · rw [if_neg h6] at h
                    by_cases h7 : c = Char.ofNat 96
                    · rw [if_pos h7] at h
                      cases hp : read_backticks l.source rest l.offset with
                      | none => simp [hp] at h
                      | some p =>
                        obtain ⟨t2, rem2⟩ := p
                        simp only [hp, POut.ok.injEq, Prod.mk.injEq] at h
                        obtain ⟨rfl, rfl⟩ := h
                        exact ⟨read_backticks_not_gt hp, by intro u hu; simp at hu⟩
                    · rw [if_neg h7] at h
                      by_cases h8 : c = ' ' ∨ c = '\t'
                      · rw [if_pos h8] at h
                        cases hp : read_whitespaces l.source rest l.offset with
                        | none => simp [hp] at h
                        | some p =>
                          obtain ⟨t2, rem2⟩ := p
                          simp only [hp, POut.ok.injEq, Prod.mk.injEq] at h
                          obtain ⟨rfl, rfl⟩ := h
                          exact ⟨read_whitespaces_not_gt hp, by intro u hu; simp at hu⟩
                      · rw [if_neg h8] at h
                        by_cases h9 : c = '\r' ∨ c = '\n'
                        · rw [if_pos h9] at h
                          cases hp : read_linebreaks l.source rest l.offset with
                          | none => simp [hp] at h
                          | some p =>
                            obtain ⟨t2, rem2⟩ := p
                            simp only [hp, POut.ok.injEq, Prod.mk.injEq] at h
                            obtain ⟨rfl, rfl⟩ := h
                            exact ⟨read_linebreaks_not_gt hp, by intro u hu; simp at hu⟩
                        · rw [if_neg h9] at h
                          by_cases h10 : c ∈ KEYCHARS
                          · rw [if_pos h10] at h
                            simp only [POut.ok.injEq, Prod.mk.injEq] at h
                            obtain ⟨rfl, rfl⟩ := h
                            exact ⟨rfl, by intro u hu; simp at hu⟩
                          · rw [if_neg h10] at h
                            cases hp : read_plaintext l.source rest l.offset with
                            | none => simp [hp] at h
                            | some p =>
                              obtain ⟨t2, rem2⟩ := p
                              simp only [hp, POut.ok.injEq, Prod.mk.injEq] at h
                              obtain ⟨rfl, rfl⟩ := h
                              exact ⟨read_plaintext_not_gt hp, by intro u hu; simp at hu⟩

/-- C10: no token of the stream produced by repeated `next_token` calls on
a fresh lexer — over any input — is the `GreaterThans` variant: `>` is in
`KEYCHARS` but has no dispatch arm of its own, so it always becomes a
single-character `KeyChar`, and the `Token::GreaterThans(range)` arm of
`parse_flow_content` can never fire on a lexer-produced stream. -/
theorem c10_no_greater_thans :
    ∀ (src : List Char) (n : Nat) (t : Token) (l : Lexer),
      nth_token src n = .ok (t, l) → is_greater_thans t = false := by
  intro src n
  have main : ∀ m t l, nth_token src m = .ok (t, l) → is_greater_thans t = false ∧ la_ok l := by
    intro m
    induction m with
    | zero =>
      intro t l h
      exact next_token_fuel_no_gt _ (Lexer.new src) (by intro u hu; simp [Lexer.new] at hu) t l h
    | succ k ih =>
      intro t l h
      unfold nth_token at h
      cases hk : nth_token src k with
      | ok q =>
        obtain ⟨t0, l0⟩ := q
        rw [hk] at h
        exact next_token_fuel_no_gt _ l0 (ih t0 l0 hk).2 t l h
      | panic => rw [hk] at h; exact absurd h (by simp)
      | fuelOut => rw [hk] at h; exact absurd h (by simp)
  intro t l h
  exact (main n t l h).1

/-- Witness for C10 at the one-character input `"a"`, token number 0. -/
theorem c10_no_greater_thans_witness :
    is_greater_thans (.PlainText ⟨0, 1⟩) = false :=
  c10_no_greater_thans ['a'] 0 (.PlainText ⟨0, 1⟩) ⟨['a'], [], none⟩ (by decide)

/-- Witness for C4 amended at the four aligned shapes and a short
`PlainText` shape: `":---"`, `"--:"`, `":--:"`, `"---"`, `"--"`. -/
theorem c4_amended_align_classification_witness :
    token_at (run_str true 3 false) 0 = some (.Align ⟨0, 4⟩ .Left) ∧
    token_at (run_str false 2 true) 0 = some (.Align ⟨0, 3⟩ .Right) ∧
    token_at (run_str true 2 true) 0 = some (.Align ⟨0, 4⟩ .Center) ∧
    token_at (run_str false 3 false) 0 = some (.Dashes ⟨0, 3⟩) ∧
    token_at (run_str false 2 false) 0 = some (.PlainText ⟨0, 2⟩) :=
  ⟨c4_amended_align_classification true 3 false (by decide),
   c4_amended_align_classification false 2 true (by decide),
   c4_amended_align_classification true 2 true (by decide),
   c4_amended_align_classification false 3 false (by decide),
   c4_amended_align_classification false 2 false (by decide)⟩

end Markdown
